import Mathlib

/-!
Verification development for the "how-it-lands" server core: the
multi-perspective analyze pipeline in `src/server/index.js`, the reviewer
(synthesis) module, and the Elasticsearch history/similarity helpers.

JavaScript runtime values that flow through the pipeline are modelled by the
`Js` inductive below (JSON values: everything here is either decoded from an
HTTP JSON body or produced by `JSON.parse`).  `JSON.parse` is modelled by an
executable fuel-based parser `jsonParse`; `JSON.stringify` by `stringifyJs`.
Machine-level concerns (numbers are kept as lexemes, since no code under
analysis computes with them) are documented at each definition.
-/

namespace HowItLands

/-- JSON values as decoded by `JSON.parse` / sent in request bodies.
Numbers are kept as their source lexeme: the analysed code never does
arithmetic on parsed numbers, it only tests presence and truthiness. -/
inductive Js where
  | null : Js
  | bool (b : Bool) : Js
  | num (lexeme : String) : Js
  | str (s : String) : Js
  | arr (elems : List Js) : Js
  | obj (fields : List (String × Js)) : Js

/-- Whitespace characters recognised by the model (the common subset of
JavaScript's `\s` and JSON inter-token whitespace). -/
def isWsCh (c : Char) : Bool := c == ' ' || c == '\t' || c == '\n' || c == '\r'

def skipWsL : List Char → List Char
  | [] => []
  | c :: cs => if isWsCh c then skipWsL cs else c :: cs

def isDigitCh (c : Char) : Bool := '0' ≤ c && c ≤ '9'

def hexVal (c : Char) : Option Nat :=
  if '0' ≤ c && c ≤ '9' then some (c.toNat - 48)
  else if 'a' ≤ c && c ≤ 'f' then some (c.toNat - 87)
  else if 'A' ≤ c && c ≤ 'F' then some (c.toNat - 55)
  else none

def quoteCh : Char := Char.ofNat 34
def lbraceCh : Char := Char.ofNat 123
def rbraceCh : Char := Char.ofNat 125
def lbrackCh : Char := Char.ofNat 91
def rbrackCh : Char := Char.ofNat 93
def backtickCh : Char := Char.ofNat 96

/-- Body of a JSON string literal (after the opening quote): consumes up to the
closing quote, decoding escapes.  Returns the decoded string and the rest. -/
def parseStrBody (fuel : Nat) (cs : List Char) (acc : List Char) :
    Option (String × List Char) :=
  match fuel, cs with
  | 0, _ => none
  | _, [] => none
  | f + 1, c :: rest =>
    if c == quoteCh then some (String.mk acc.reverse, rest)
    else if c == '\\' then
      match rest with
      | [] => none
      | e :: rest2 =>
        if e == quoteCh || e == '\\' || e == '/' then parseStrBody f rest2 (e :: acc)
        else if e == 'n' then parseStrBody f rest2 ('\n' :: acc)
        else if e == 't' then parseStrBody f rest2 ('\t' :: acc)
        else if e == 'r' then parseStrBody f rest2 ('\r' :: acc)
        else if e == 'b' then parseStrBody f rest2 (Char.ofNat 8 :: acc)
        else if e == 'f' then parseStrBody f rest2 (Char.ofNat 12 :: acc)
        else if e == 'u' then
          match rest2 with
          | h1 :: h2 :: h3 :: h4 :: rest3 =>
            match hexVal h1, hexVal h2, hexVal h3, hexVal h4 with
            | some a, some b, some c2, some d =>
              parseStrBody f rest3 (Char.ofNat (((a * 16 + b) * 16 + c2) * 16 + d) :: acc)
            | _, _, _, _ => none
          | _ => none
        else none
    else parseStrBody f rest (c :: acc)

/-- A JSON number lexeme: optional sign, digits, optional fraction, optional
exponent.  The lexeme is kept verbatim (slightly laxer than strict JSON on
leading zeros, which no analysed input exercises). -/
def parseNumLex (cs : List Char) : Option (String × List Char) :=
  let signed := match cs with
    | c :: rest => if c == '-' then (([c] : List Char), rest) else (([] : List Char), cs)
    | [] => (([] : List Char), cs)
  let sign := signed.1
  let cs1 := signed.2
  let intPart := cs1.takeWhile isDigitCh
  let cs2 := cs1.dropWhile isDigitCh
  if intPart.isEmpty then none
  else
    let fracked : List Char × List Char := match cs2 with
      | c :: rest =>
        if c == '.' && !(rest.takeWhile isDigitCh).isEmpty
        then (c :: rest.takeWhile isDigitCh, rest.dropWhile isDigitCh)
        else ([], cs2)
      | [] => ([], cs2)
    let cs3 := fracked.2
    let exped : List Char × List Char := match cs3 with
      | c :: rest =>
        if c == 'e' || c == 'E' then
          match rest with
          | s :: rest2 =>
            if s == '+' || s == '-' then
              if (rest2.takeWhile isDigitCh).isEmpty then ([], cs3)
              else (c :: s :: rest2.takeWhile isDigitCh, rest2.dropWhile isDigitCh)
            else if (rest.takeWhile isDigitCh).isEmpty then ([], cs3)
            else (c :: rest.takeWhile isDigitCh, rest.dropWhile isDigitCh)
          | [] => ([], cs3)
        else ([], cs3)
      | [] => ([], cs3)
    some (String.mk (sign ++ intPart ++ fracked.1 ++ exped.1), exped.2)

mutual

/-- One JSON value (fuel-based recursive-descent model of `JSON.parse`). -/
def parseVal : Nat → List Char → Option (Js × List Char)
  | 0, _ => none
  | f + 1, cs =>
    match skipWsL cs with
    | [] => none
    | c :: rest =>
      if c == lbraceCh then parseObjFields f rest true []
      else if c == lbrackCh then parseArrElems f rest true []
      else if c == quoteCh then
        match parseStrBody (f + 1) rest [] with
        | some (s, r) => some (.str s, r)
        | none => none
      else if c == 't' then
        match rest with
        | 'r' :: 'u' :: 'e' :: r => some (.bool true, r)
        | _ => none
      else if c == 'f' then
        match rest with
        | 'a' :: 'l' :: 's' :: 'e' :: r => some (.bool false, r)
        | _ => none
      else if c == 'n' then
        match rest with
        | 'u' :: 'l' :: 'l' :: r => some (.null, r)
        | _ => none
      else
        match parseNumLex (c :: rest) with
        | some (lex, r) => some (.num lex, r)
        | none => none

def parseArrElems : Nat → List Char → Bool → List Js → Option (Js × List Char)
  | 0, _, _, _ => none
  | f + 1, cs, isFirst, acc =>
    match skipWsL cs with
    | [] => none
    | c :: rest =>
      if c == rbrackCh && isFirst then some (.arr acc.reverse, rest)
      else
        match parseVal f (c :: rest) with
        | none => none
        | some (v, r1) =>
          match skipWsL r1 with
          | [] => none
          | c2 :: r2 =>
            if c2 == ',' then parseArrElems f r2 false (v :: acc)
            else if c2 == rbrackCh then some (.arr (v :: acc).reverse, r2)
            else none

def parseObjFields : Nat → List Char → Bool → List (String × Js) →
    Option (Js × List Char)
  | 0, _, _, _ => none
  | f + 1, cs, isFirst, acc =>
    match skipWsL cs with
    | [] => none
    | c :: rest =>
      if c == rbraceCh && isFirst then some (.obj acc.reverse, rest)
      else if c == quoteCh then
        match parseStrBody (f + 1) rest [] with
        | none => none
        | some (k, r1) =>
          match skipWsL r1 with
          | [] => none
          | c1 :: r2 =>
            if c1 == ':' then
              match parseVal f r2 with
              | none => none
              | some (v, r3) =>
                match skipWsL r3 with
                | [] => none
                | c2 :: r4 =>
                  if c2 == ',' then parseObjFields f r4 false ((k, v) :: acc)
                  else if c2 == rbraceCh then some (.obj ((k, v) :: acc).reverse, r4)
                  else none
            else none
      else none

end

/-- Model of `JSON.parse`: parse one value and require only whitespace after
it; any failure is `none` (the JS exception, always caught by the callers
under analysis). -/
def jsonParse (s : String) : Option Js :=
  match parseVal (2 * s.length + 8) s.toList with
  | some (v, rest) => if (skipWsL rest).isEmpty then some v else none
  | none => none

def escJsonChar (c : Char) : List Char :=
  if c == quoteCh then ['\\', quoteCh]
  else if c == '\\' then ['\\', '\\']
  else if c == '\n' then ['\\', 'n']
  else if c == '\t' then ['\\', 't']
  else if c == '\r' then ['\\', 'r']
  else [c]

def escStrChars (s : String) : List Char :=
  s.toList.foldr (fun c acc => escJsonChar c ++ acc) []

mutual

/-- Model of `JSON.stringify` on decoded JSON values. -/
def stringifyJs : Js → List Char
  | .null => "null".toList
  | .bool true => "true".toList
  | .bool false => "false".toList
  | .num lex => lex.toList
  | .str s => quoteCh :: escStrChars s ++ [quoteCh]
  | .arr es => lbrackCh :: stringifyArr es ++ [rbrackCh]
  | .obj fs => lbraceCh :: stringifyObj fs ++ [rbraceCh]

def stringifyArr : List Js → List Char
  | [] => []
  | [e] => stringifyJs e
  | e :: e2 :: rest => stringifyJs e ++ ',' :: stringifyArr (e2 :: rest)

def stringifyObj : List (String × Js) → List Char
  | [] => []
  | [(k, v)] => (quoteCh :: escStrChars k ++ [quoteCh]) ++ ':' :: stringifyJs v
  | (k, v) :: f2 :: rest =>
    (quoteCh :: escStrChars k ++ [quoteCh]) ++ ':' :: stringifyJs v ++
      ',' :: stringifyObj (f2 :: rest)

end

def stringify (v : Js) : String := String.mk (stringifyJs v)

/-! ### JavaScript object access and truthiness -/

/-- Property lookup on a decoded object.  `JSON.parse` keeps the last of
duplicate keys, and the parser above keeps fields in order, so lookup takes
the last matching pair.  `none` models JavaScript `undefined`. -/
def lookupLast (fields : List (String × Js)) (k : String) : Option Js :=
  match fields with
  | [] => none
  | (k1, v) :: rest =>
    match lookupLast rest k with
    | some w => some w
    | none => if k1 == k then some v else none

/-- Access `v[k]`: property access; `undefined` (`none`) on non-objects. -/
def jsGet : Js → String → Option Js
  | .obj fields, k => lookupLast fields k
  | _, _ => none

/-- Access `v[k1]?.[k2]` (optional chaining through the first step). -/
def jsGet2 (v : Js) (k1 k2 : String) : Option Js :=
  match jsGet v k1 with
  | some w => jsGet w k2
  | none => none

def getField (v : Js) (k : String) : Js := (jsGet v k).getD .null

def getField2 (v : Js) (k1 k2 : String) : Js := (jsGet2 v k1 k2).getD .null

/-- Truthiness of a number lexeme: zero (in any spelling, e.g. `-0.00`) is
falsy.  Digits of the exponent do not make the value non-zero. -/
def numTruthy (lex : String) : Bool :=
  (lex.toList.takeWhile (fun c => !(c == 'e' || c == 'E'))).any
    (fun c => '1' ≤ c && c ≤ '9')

def jsTruthyV : Js → Bool
  | .null => false
  | .bool b => b
  | .num lex => numTruthy lex
  | .str s => !(s == "")
  | .arr _ => true
  | .obj _ => true

/-- JavaScript truthiness of a possibly-`undefined` value. -/
def jsTruthy : Option Js → Bool
  | none => false
  | some v => jsTruthyV v

def isNullJs : Js → Bool
  | .null => true
  | _ => false

/-! ### Response extraction (src/server/index.js, `parseCandidate` and the
strategy chain in `analyzePerspective`, lines 136-184) -/

/-- Minimal shape-validity test used by `parseCandidate`:
`parsed.feedback_text || parsed.relatability` must be truthy. -/
def validShape (v : Js) : Bool :=
  jsTruthy (jsGet v "feedback_text") || jsTruthy (jsGet v "relatability")

def startsWithL (pre cs : List Char) : Bool :=
  match pre, cs with
  | [], _ => true
  | _ :: _, [] => false
  | p :: ps, c :: cs2 => p == c && startsWithL ps cs2

def fenceJson : List Char :=
  [backtickCh, backtickCh, backtickCh, 'j', 's', 'o', 'n']

def fencePlain : List Char := [backtickCh, backtickCh, backtickCh]

/-- Model of `text.replace(/^` ``` `json\s*／, ＇＇)`: strip a leading ` ``` `json fence. -/
def stripFenceJsonPre (cs : List Char) : List Char :=
  if startsWithL fenceJson cs then (cs.drop 7).dropWhile isWsCh else cs

/-- Model of `text.replace(/^` ``` `\s*／, ＇＇)`: strip a leading plain fence. -/
def stripFencePlainPre (cs : List Char) : List Char :=
  if startsWithL fencePlain cs then (cs.drop 3).dropWhile isWsCh else cs

/-- Model of `text.replace(/\s*` ``` `$／, ＇＇)`: strip a trailing fence and the
whitespace before it. -/
def stripFenceSuffix (cs : List Char) : List Char :=
  let r := cs.reverse
  if startsWithL fencePlain r then ((r.drop 3).dropWhile isWsCh).reverse else cs

def trimL (cs : List Char) : List Char :=
  ((cs.dropWhile isWsCh).reverse.dropWhile isWsCh).reverse

/-- The `clean` local of `parseCandidate`: fence stripping then `.trim()`. -/
def cleanCandidate (s : String) : String :=
  String.mk (trimL (stripFenceSuffix (stripFencePlainPre (stripFenceJsonPre s.toList))))

/-- Model of `text.match(/\x7b[\s\S]*\x7d/)`: the greedy match runs from the first
opening brace to the last closing brace, when that span is non-degenerate. -/
def braceSpan (s : String) : Option String :=
  let cs := s.toList
  match cs.findIdx? (fun c => c == lbraceCh) with
  | none => none
  | some i =>
    match cs.reverse.findIdx? (fun c => c == rbraceCh) with
    | none => none
    | some jr =>
      let j := cs.length - 1 - jr
      if i ≤ j then some (String.mk ((cs.take (j + 1)).drop i)) else none

/-- The catch-branch of `parseCandidate`: regex-extract a brace span from the
original text and strictly parse it.  A parsed `null` models the JS
`parsed.feedback_text` TypeError, swallowed by the inner catch: result null. -/
def regexBranch (s : String) : Option Js :=
  match braceSpan s with
  | some span =>
    match jsonParse span with
    | some v => if isNullJs v then none else if validShape v then some v else none
    | none => none
  | none => none

/-- Model of `parseCandidate` (src/server/index.js lines 136-153).  On a non-string
argument both `text.replace` and `text.match` throw, each swallowed by a
catch, so the result is null.  On a string: strict parse of the cleaned text;
a parsed `null` makes the shape test throw into the catch (regex) branch;
a shape-test failure after a successful strict parse returns null without
trying the regex branch. -/
def parseCandidate : Js → Option Js
  | .str s =>
    (match jsonParse (cleanCandidate s) with
     | some v => if isNullJs v then regexBranch s else if validShape v then some v else none
     | none => regexBranch s)
  | _ => none

/-- One guarded strategy application: `if (!result && guard) result =
parseCandidate(candidate)`. -/
def extractStep (cur : Option Js) (guard : Bool) (candidate : Js) : Option Js :=
  match cur with
  | some v => some v
  | none => if guard then parseCandidate candidate else none

/-- Test `step.type === ＇message_creation＇ && step.content`, for a non-null
step: on a null element `step.type` throws a TypeError that escapes the chain
to the worker catch, which `stepsScanE` models before this test is
consulted.  Property access on other decoded values never throws in JS
(primitives autobox). -/
def stepMC (step : Js) : Bool :=
  (match jsGet step "type" with
   | some (.str t) => t == "message_creation"
   | _ => false) && jsTruthy (jsGet step "content")

/-- Strategy 3 (src/server/index.js lines 164-172): the steps loop.  A null
element makes `step.type` (line 167) throw past the chain to the worker catch
— the `.error` case; the loop only breaks on a truthy result, so a null
assignment keeps scanning, and once a result was found the remaining steps
(null ones included) are no longer touched. -/
def stepsScanE : List Js → Option Js → Except Unit (Option Js)
  | [], cur => .ok cur
  | step :: rest, cur =>
    match cur with
    | some v => .ok (some v)
    | none =>
      if isNullJs step then .error ()
      else if stepMC step then stepsScanE rest (parseCandidate (getField step "content"))
      else stepsScanE rest none

/-- Strategies 1 and 2 of the extraction chain (src/server/index.js lines
155-161): guarded parses of `output`, `message`, `response?.message`,
`response?.output`, in that order.  Consulted only for a non-null payload
(`extractE` models the TypeError of `agentResponse.output` on null first);
on non-null values property access yields `undefined` rather than throwing,
and the nested accesses use optional chaining, so these guards are
throw-free. -/
def extractChain4 (resp : Js) : Option Js :=
  extractStep (extractStep (extractStep (extractStep none
    (jsTruthy (jsGet resp "output")) (getField resp "output"))
    (jsTruthy (jsGet resp "message")) (getField resp "message"))
    (jsTruthy (jsGet2 resp "response" "message")) (getField2 resp "response" "message"))
    (jsTruthy (jsGet2 resp "response" "output")) (getField2 resp "response" "output")

/-- Strategy 4 (lines 174-183) applied to the scan result: stringify the
whole response and re-run the candidate parse when nothing was found, then
re-parse a string-typed result one last time. -/
def finishExtract (resp : Js) (cur : Option Js) : Option Js :=
  match (match cur with
         | none => parseCandidate (.str (stringify resp))
         | some v => some v) with
  | some (.str s) =>
    (match parseCandidate (.str s) with
     | some v2 => some v2
     | none => some (.str s))
  | other => other

/-- The whole extraction strategy chain of `analyzePerspective`
(src/server/index.js lines 155-184).  The chain itself can throw: on a null
payload the very first guard `agentResponse.output` (line 156) raises a
TypeError, and a null element of a `steps` array raises one inside the scan
(line 167); both escape the chain to the worker catch and are the `.error`
case here.  Every parse failure inside the strategies stays caught. -/
def extractE (resp : Js) : Except Unit (Option Js) :=
  if isNullJs resp then .error ()
  else
    match extractChain4 resp with
    | some v => .ok (finishExtract resp (some v))
    | none =>
      match jsGet resp "steps" with
      | some (.arr steps) => (stepsScanE steps none).map (finishExtract resp)
      | _ => .ok (finishExtract resp none)

/-! ### Worker success path: forcing identity fields
(src/server/index.js lines 186-205) -/

/-- ASCII model of `String.prototype.toLowerCase` (the role names and
conflict labels under analysis are ASCII). -/
def toLowerCh (c : Char) : Char :=
  if 'A' ≤ c && c ≤ 'Z' then Char.ofNat (c.toNat + 32) else c

/-- Model of `role.toLowerCase().replace(/ /g, ＇_＇)`. -/
def roleIdOf (role : String) : String :=
  String.mk (role.toList.map (fun c =>
    let lc := toLowerCh c
    if lc == ' ' then '_' else lc))

/-- Feedback id template `` `f_$\x7broleId\x7d_$\x7bDate.now()\x7d` ``, with the clock passed in. -/
def mkFeedbackId (roleId : String) (now : Nat) : String :=
  "f_" ++ roleId ++ "_" ++ toString now

/-- Property assignment `o[k] = v`: update in place if the key exists,
append otherwise. -/
def assocSet (fields : List (String × Js)) (k : String) (v : Js) :
    List (String × Js) :=
  if fields.any (fun p => p.1 == k) then
    fields.map (fun p => if p.1 == k then (p.1, v) else p)
  else fields ++ [(k, v)]

/-- Assignment on a decoded value.  Non-objects are returned unchanged: the
success path only ever assigns on extraction results, which are objects. -/
def jsSet (o : Js) (k : String) (v : Js) : Js :=
  match o with
  | .obj fields => .obj (assocSet fields k v)
  | other => other

/-- Assignments `result.feedback_id = feedbackId; result.agent_mode = roleId;`. -/
def mintStage1 (roleId : String) (now : Nat) (r : Js) : Js :=
  jsSet (jsSet r "feedback_id" (.str (mkFeedbackId roleId now))) "agent_mode"
    (.str roleId)

def mapWithIdx (f : Nat → α → β) : Nat → List α → List β
  | _, [] => []
  | n, a :: as => f n a :: mapWithIdx f (n + 1) as

/-- Loop `result.concepts.forEach((concept, idx) => stage2Results.push(...))`:
each embedded concept becomes a Stage-2 record whose id is derived from the
parent feedback id and the ordinal, with a parent back-reference.  Fields
absent on the concept are JS `undefined`; modelled as null. -/
def mintStage2 (setId fid : String) (r : Js) : List Js :=
  match jsGet r "concepts" with
  | some (.arr cs) =>
    mapWithIdx (fun i c => Js.obj [
      ("concept_id", .str ("c_" ++ fid ++ "_" ++ toString i)),
      ("parent_feedback_id", .str fid),
      ("set_id", .str setId),
      ("angle_name", getField c "angle_name"),
      ("explanation", getField c "explanation"),
      ("exploration_direction", getField c "exploration_direction")]) 0 cs
  | _ => []

/-- Number of Stage-2 records contributed by one successful perspective. -/
def conceptsCount (r : Js) : Nat :=
  match jsGet r "concepts" with
  | some (.arr cs) => cs.length
  | _ => 0

/-- Does the concepts loop throw on this record?  `concept.angle_name`
(line 201) raises a TypeError exactly when a concepts element is null (other
primitives autobox). -/
def hasNullConcept (r : Js) : Bool :=
  match jsGet r "concepts" with
  | some (.arr cs) => cs.any isNullJs
  | _ => false

/-- Stage-2 entries pushed before the concepts loop throws: the property
access comes before the push, so exactly the concepts strictly before the
first null element were pushed. -/
def partialConcepts (r : Js) : Nat :=
  match jsGet r "concepts" with
  | some (.arr cs) => (cs.takeWhile (fun c => !(isNullJs c))).length
  | _ => 0

/-- End state of one `analyzePerspective` run (src/server/index.js lines
101-219).  `threw`: the worker catch fired before any push (thrown call, or
a throwing extraction chain).  `noRecord`: the extraction returned null, the
`if (result)` guard skips everything, no failure is logged.
`pushedThenThrew r`: the record was pushed into stage1Results (line 192) and
the concepts loop then threw on a null concept (line 201), so the worker is
caught and logged as failed, no events are emitted, yet its record stays
accumulated.  `completed r`: the full success path, events included. -/
inductive WorkerOutcome where
  | threw : WorkerOutcome
  | noRecord : WorkerOutcome
  | pushedThenThrew (r : Js) : WorkerOutcome
  | completed (r : Js) : WorkerOutcome

/-- The record a worker left in the stage1Results accumulator, if any. -/
def pushedRecord : WorkerOutcome → Option Js
  | .threw => none
  | .noRecord => none
  | .pushedThenThrew r => some r
  | .completed r => some r

def producedRecord (w : WorkerOutcome) : Bool := (pushedRecord w).isSome

/-- Did the worker catch fire (the run logged as a failed perspective)? -/
def isCaught : WorkerOutcome → Bool
  | .threw => true
  | .pushedThenThrew _ => true
  | _ => false

/-- One worker run as a function of the external call: a thrown call or a
throwing extraction is caught before any push; a null extraction is a silent
skip; otherwise the record is minted and pushed, and the run completes fully
unless the concepts loop throws on a null concept. -/
def workerRun (roleId : String) (now : Nat) (call : Except Unit Js) :
    WorkerOutcome :=
  match call with
  | .error _ => .threw
  | .ok resp =>
    match extractE resp with
    | .error _ => .threw
    | .ok none => .noRecord
    | .ok (some r) =>
      let r2 := mintStage1 roleId now r
      if hasNullConcept r2 then .pushedThenThrew r2 else .completed r2

/-! ### Conflict-pair canonicalization (reviewer module, `normalizeConflict`,
lines 119-133) -/

def lowerStr (s : String) : String := String.mk (s.toList.map toLowerCh)

/-- Model of `replace(/\./g, ＇＇)`: only periods are removed. -/
def stripDots (s : String) : String :=
  String.mk (s.toList.filter (fun c => !(c == '.')))

/-- First phase of normalizeConflict: lower-case, then strip periods. -/
def conflictPhase1 (s : String) : String := stripDots (lowerStr s)

def vsSep : List Char := [' ', 'v', 's', ' ']

/-- Containment test `normalized.includes(＇ vs ＇)`. -/
def hasVsSep : List Char → Bool
  | [] => false
  | c :: rest => startsWithL vsSep (c :: rest) || hasVsSep rest

/-- Left-to-right, non-overlapping split on " vs " (JS `split` with a string
separator). -/
def splitVsAux (fuel : Nat) (cs cur : List Char) (acc : List (List Char)) :
    List (List Char) :=
  match fuel with
  | 0 => (cur.reverse :: acc).reverse
  | f + 1 =>
    if startsWithL vsSep cs then splitVsAux f (cs.drop 4) [] (cur.reverse :: acc)
    else
      match cs with
      | [] => (cur.reverse :: acc).reverse
      | c :: rest => splitVsAux f rest (c :: cur) acc

def splitVs (cs : List Char) : List (List Char) :=
  splitVsAux (cs.length + 1) cs [] []

/-- Lexicographic code-unit comparison backing the default JS `sort()`. -/
def lexLe : List Char → List Char → Bool
  | [], _ => true
  | _ :: _, [] => false
  | a :: as, b :: bs => if a == b then lexLe as bs else decide (a < b)

def insertLe (x : List Char) : List (List Char) → List (List Char)
  | [] => [x]
  | y :: ys => if lexLe x y then x :: y :: ys else y :: insertLe x ys

/-- Model of `parts.sort()` (default lexicographic comparator); any sorted
rearrangement of string parts is determined up to equal elements. -/
def sortPartsL (l : List (List Char)) : List (List Char) := l.foldr insertLe []

def joinVs : List (List Char) → List Char
  | [] => []
  | [p] => p
  | p :: p2 :: rest => p ++ vsSep ++ joinVs (p2 :: rest)

/-- Model of `normalizeConflict` on strings (the falsy/non-string guard lives
in `normalizeConflictJs`): lower-case, strip periods; when the result contains
" vs ", split on it, trim the parts, sort them alphabetically and rejoin. -/
def normalizeConflict (s : String) : String :=
  let normalized := conflictPhase1 s
  let cs := normalized.toList
  if hasVsSep cs then String.mk (joinVs (sortPartsL ((splitVs cs).map trimL)))
  else normalized

/-- Guarded normalizeConflict: falsy (empty) or non-string input returns
null (`none`). -/
def normalizeConflictJs : Js → Option String
  | .str s => if s == "" then none else some (normalizeConflict s)
  | _ => none

/-! ### Reviewer (synthesis) parsing: `parseReviewerResponse` and `getReview`
(reviewer module lines 140-241) -/

def defaultReview : List (String × Js) :=
  [("reasoning", .str "Analysis pending..."),
   ("divergence_score", .num "0"),
   ("risk_level", .str "unknown"),
   ("primary_conflict", .str "None detected"),
   ("conflict_summary", .str "Insufficient data for analysis"),
   ("recommendation", .str "No recommendation available")]

/-- Spread semantics for the second operand of an object spread merge:
objects contribute their fields, arrays and strings their indexed elements,
other primitives nothing. -/
def spreadFields : Js → List (String × Js)
  | .obj fs => fs
  | .arr es => mapWithIdx (fun i e => (toString i, e)) 0 es
  | .str s => mapWithIdx (fun i c => (toString i, Js.str (String.mk [c]))) 0 s.toList
  | _ => []

/-- Merge `result` with a parsed payload by object spread. -/
def mergeSpread (base : List (String × Js)) (upd : Js) : List (String × Js) :=
  (spreadFields upd).foldl (fun acc kv => assocSet acc kv.1 kv.2) base

/-- Condition `step.type === ＇tool_call＇ && step.params?.data` followed by
the presence test `data.divergence_score !== undefined` (a null value still
counts as present), for a non-null step: the `step.type` TypeError on a null
element is modelled by `reviewScanE` before this test is consulted. -/
def stepToolData (step : Js) : Option Js :=
  let data := jsGet2 step "params" "data"
  if ((match jsGet step "type" with
       | some (.str t) => t == "tool_call"
       | _ => false) && jsTruthy data) then
    match data with
    | some d => if (jsGet d "divergence_score").isSome then some d else none
    | none => none
  else none

/-- First strategy of parseReviewerResponse: the steps loop (no break in the
source).  A null element makes `step.type` (line 157) throw inside the try;
mutations from earlier iterations persist, so the `.error` value carries the
result as merged so far — the state the catch at line 209 returns. -/
def reviewScanE : List Js → List (String × Js) →
    Except (List (String × Js)) (List (String × Js))
  | [], r => .ok r
  | step :: rest, r =>
    if isNullJs step then .error r
    else
      match stepToolData step with
      | some d => reviewScanE rest (mergeSpread r d)
      | none => reviewScanE rest r

/-- The guarded steps scan: consulted only when `steps` is an array. -/
def applyStepsE (resp : Js) (r : List (String × Js)) :
    Except (List (String × Js)) (List (String × Js)) :=
  match jsGet resp "steps" with
  | some (.arr steps) => reviewScanE steps r
  | _ => .ok r

/-- Selection `agentResponse.output || agentResponse.message ||
agentResponse.response?.message || (typeof agentResponse === ＇string＇ ?
agentResponse : JSON.stringify(agentResponse))`. -/
def reviewJsonContent (resp : Js) : Js :=
  if jsTruthy (jsGet resp "output") then getField resp "output"
  else if jsTruthy (jsGet resp "message") then getField resp "message"
  else if jsTruthy (jsGet2 resp "response" "message") then
    getField2 resp "response" "message"
  else
    match resp with
    | .str _ => resp
    | _ => .str (stringify resp)

/-- Fallback parse of parseReviewerResponse.  For a string: the same fence
strip plus trim as parseCandidate, then a strict parse, then the regex span —
taken from the cleaned string, since the source reassigns jsonContent before
matching.  For an object: merged only if `divergence_score` is present
(arrays and other primitives never pass the property test). -/
def reviewFallbackParse (jc : Js) : Option Js :=
  match jc with
  | .str s =>
    let s2 := cleanCandidate s
    (match jsonParse s2 with
     | some v => some v
     | none =>
       match braceSpan s2 with
       | some span => jsonParse span
       | none => none)
  | .obj _ => if (jsGet jc "divergence_score").isSome then some jc else none
  | _ => none

def applyFallback (resp : Js) (r : List (String × Js)) : List (String × Js) :=
  match reviewFallbackParse (reviewJsonContent resp) with
  | some v => mergeSpread r v
  | none => r

/-- Final normalization step: `if (result.primary_conflict)
result.primary_conflict = normalizeConflict(result.primary_conflict) ||
result.primary_conflict` — a falsy normalization result (null for non-string
input, or the empty string) keeps the original value. -/
def normalizePcField (r : List (String × Js)) : List (String × Js) :=
  match lookupLast r "primary_conflict" with
  | some v =>
    if jsTruthyV v then
      match normalizeConflictJs v with
      | some ns => if ns == "" then r else assocSet r "primary_conflict" (.str ns)
      | none => r
    else r
  | none => r

/-- Model of parseReviewerResponse (reviewer module lines 140-215).  The
`Object.keys(agentResponse)` log at line 141 sits before the try, so a null
response throws out of the function — the `.error ()` case, which propagates
to getReview and on to the session (a non-fatal synthesis error there).
Otherwise: start from the fixed defaults and run the steps scan inside the
try; if it throws (a null steps element), the catch at line 209 returns the
result merged so far, skipping the fallback and the normalization at lines
203-206; on a clean scan, merge the fallback only while
`result.risk_level === ＇unknown＇`, then normalize the conflict label. -/
def parseReviewerResponse (resp : Js) : Except Unit (List (String × Js)) :=
  if isNullJs resp then .error ()
  else
    match applyStepsE resp defaultReview with
    | .error r => .ok r
    | .ok r1 =>
      .ok (normalizePcField
        (if (match lookupLast r1 "risk_level" with
             | some (.str t) => t == "unknown"
             | _ => false)
         then applyFallback resp r1 else r1))

/-- Degenerate record returned when fewer than 2 Stage-1 records exist
(reviewer module lines 228-237). -/
def degenerateReview : List (String × Js) :=
  [("divergence_score", .num "0"),
   ("risk_level", .str "low"),
   ("primary_conflict", .str "N/A"),
   ("conflict_summary", .str "Insufficient data for analysis"),
   ("recommendation", .str "Need more reactions to provide meaningful review")]

/-- Model of getReview (reviewer module lines 226-241).  The external
reviewer call is passed in as `call` (a throw is `.error`); the returned Bool
records whether that external capability was invoked at all.  A JS null
`stage1` cannot arise for a List, so the `!stage1` disjunct collapses into
the length test. -/
def getReview (stage1 : List Js) (call : Except Unit Js) :
    Bool × Except Unit (List (String × Js)) :=
  if stage1.length < 2 then (false, .ok degenerateReview)
  else
    match call with
    | .error e => (true, .error e)
    | .ok resp => (true, parseReviewerResponse resp)

/-! ### Streaming session (POST /api/analyze, src/server/index.js lines
51-269) -/

inductive SEvent where
  | start : SEvent
  | progress : SEvent
  | resultStage1 (stage1Count stage2Count : Nat) : SEvent
  | resultStage3 : SEvent
  | errorEv : SEvent
  | done : SEvent
deriving Repr, DecidableEq

/-- Events emitted inside the Promise.all fan-out, in completion order.  A
thrown or record-less worker only logs and emits nothing.  A worker whose
concepts loop threw after the push emits nothing either (the result_stage1
send at line 211 comes after the forEach), but its pushed Stage-1 record and
its partially pushed Stage-2 entries do raise the cumulative counts carried
by later workers.  The counts are cumulative, matching the ever-growing
payloads.  The section from the push to the sends has no await, so each
worker completion is one atomic block of the event loop. -/
def workerEvents : List WorkerOutcome → Nat → Nat → List SEvent
  | [], _, _ => []
  | .threw :: rest, n1, n2 => workerEvents rest n1 n2
  | .noRecord :: rest, n1, n2 => workerEvents rest n1 n2
  | .pushedThenThrew r :: rest, n1, n2 =>
    workerEvents rest (n1 + 1) (n2 + partialConcepts r)
  | .completed r :: rest, n1, n2 =>
    .resultStage1 (n1 + 1) (n2 + conceptsCount r) :: .progress ::
      workerEvents rest (n1 + 1) (n2 + conceptsCount r)

/-- Contents of the shared stage1Results accumulator after the fan-out: one
record per worker that reached the push at line 192 — the fully completed
workers and the ones whose concepts loop threw after the push — in
completion order. -/
def analyzeStage1 (outcomes : List WorkerOutcome) : List Js :=
  outcomes.filterMap pushedRecord

/-- Event stream of one accepted analyze session, with the environment's
nondeterminism passed in: worker outcomes in completion order, whether the
Stage-1 persistence call (`storeDocsToES`) succeeds, whether the reviewer is
enabled, and whether the reviewer call plus the Stage-3 persistence succeed
(both sit inside the same inner try).  The out-of-band ping heartbeats are
not part of the semantic stream.  A Stage-1 persistence throw reaches the
outer catch: one session error event, then the finally closes the response —
no done event on that path. -/
def analyzeEvents (outcomes : List WorkerOutcome)
    (storeOk reviewerEnabled reviewOk : Bool) : List SEvent :=
  .start :: .progress :: workerEvents outcomes 0 0 ++
    (if storeOk then
      (if reviewerEnabled && !((analyzeStage1 outcomes).length == 0) then
        .progress :: (if reviewOk then [.resultStage3] else [.errorEv])
      else []) ++ [.done]
    else [.errorEv])

/-! ### History listing (`fetchHistory`, ES module lines 593-642) -/

structure HistBucket where
  set_id : String
  line_text : Option String
  created_at : Option Nat
deriving Repr, DecidableEq

structure HistItem where
  set_id : String
  line_text : String
  created_at : Option Nat
deriving Repr, DecidableEq

/-- Bucket to history item: `hit.line_text || ＇Unknown＇`,
`hit.created_at || null`. -/
def bucketToItem (b : HistBucket) : HistItem :=
  ⟨b.set_id, b.line_text.getD "Unknown", b.created_at⟩

/-- Sort key of the comparator `new Date(b.created_at) - new Date(a.created_at)`;
a null date is the epoch. -/
def histKey (it : HistItem) : Nat := it.created_at.getD 0

def histLe (a b : HistItem) : Prop := histKey b ≤ histKey a

instance : DecidableRel histLe :=
  fun a b => inferInstanceAs (Decidable (histKey b ≤ histKey a))

/-- Recency-descending sort of the history items.  `Array.prototype.sort`
guarantees a permutation ordered by the comparator; insertion sort realises
one. -/
def histSort (l : List HistItem) : List HistItem := l.insertionSort histLe

/-- Model of fetchHistory on the aggregation's buckets: map each bucket to an
item, sort by recency descending, take the total before paginating, then
`allItems.slice(offset, offset + limit)`. -/
def fetchHistory (buckets : List HistBucket) (limit offset : Nat) :
    List HistItem × Nat :=
  let allItems := histSort (buckets.map bucketToItem)
  ((allItems.drop offset).take limit, allItems.length)

/-- Modelled from the spec: §6 `listDistinctByRecency(limit, offset)` is
served by the document store's composite aggregation, which returns at most
the requested number of distinct-key buckets per page; the query in
fetchHistory fixes that size at 1000 and never pages further, so the handler
sees the store's first 1000 buckets. -/
def fetchHistoryFull (storeBuckets : List HistBucket) (limit offset : Nat) :
    List HistItem × Nat :=
  fetchHistory (storeBuckets.take 1000) limit offset

/-! ### Similarity search (`findSimilarJokes` and its fallback, ES module
lines 674-808) -/

structure ESDoc where
  set_id : String
  stage : Nat
  line_text : String
  feedback_text : String
deriving Repr, DecidableEq

structure SimilarJoke where
  set_id : String
  line_text : String
deriving Repr, DecidableEq

/-- Modelled from the spec: execution of the bool query built by
findSimilarJokes — a document matches iff every `must` clause matches
(`term stage:1` and the semantic or more_like_this clause, abstracted as
`docMatch`) and no `must_not` clause does; the `must_not` list holds exactly
the `term` on the excluded set_id when one is supplied. -/
def simQueryMatches (docMatch : ESDoc → Bool) (excl : Option String)
    (d : ESDoc) : Bool :=
  (d.stage == 1) && docMatch d &&
    (match excl with
     | some e => !(d.set_id == e)
     | none => true)

/-- One representative document per distinct set_id, in store order. -/
def dedupByKey : List ESDoc → List String → List ESDoc
  | [], _ => []
  | d :: rest, seen =>
    if seen.contains d.set_id then dedupByKey rest seen
    else d :: dedupByKey rest (d.set_id :: seen)

/-- Modelled from the spec: the `terms` aggregation over the matching
documents buckets them by set_id and returns at most `limit` buckets, each
sampled by one top hit from inside the bucket. -/
def simBuckets (docs : List ESDoc) (docMatch : ESDoc → Bool)
    (excl : Option String) (limit : Nat) : List ESDoc :=
  (dedupByKey (docs.filter (simQueryMatches docMatch excl)) []).take limit

/-- Model of findSimilarJokesFallback (more_like_this path): the same bool
query shape with the lexical clause, the same exclusion. -/
def findSimilarJokesFallback (docs : List ESDoc) (lexicalMatch : ESDoc → Bool)
    (limit : Nat) (excl : Option String) : List SimilarJoke :=
  (simBuckets docs lexicalMatch excl limit).map (fun d => ⟨d.set_id, d.line_text⟩)

/-- Model of findSimilarJokes: the semantic path; when the semantic search
fails (non-200, missing aggregations, or a thrown request — collapsed into
`semanticOk`) it falls back to the more_like_this path. -/
def findSimilarJokes (docs : List ESDoc) (semanticMatch lexicalMatch : ESDoc → Bool)
    (semanticOk : Bool) (limit : Nat) (excl : Option String) : List SimilarJoke :=
  if semanticOk then
    (simBuckets docs semanticMatch excl limit).map (fun d => ⟨d.set_id, d.line_text⟩)
  else findSimilarJokesFallback docs lexicalMatch limit excl

/-- Concrete five-entry history used to exercise the pagination theorem. -/
def histDemo : List HistBucket :=
  [⟨"s1", some "alpha", some 50⟩, ⟨"s2", some "beta", some 40⟩,
   ⟨"s3", some "gamma", some 30⟩, ⟨"s4", some "delta", some 20⟩,
   ⟨"s5", some "epsilon", some 10⟩]

/-! ## Theorems

Shape validity of extraction results: every success of `parseCandidate`, and
hence of the whole chain, passed the `feedback_text || relatability` test. -/

theorem regexBranch_valid : ∀ s v, regexBranch s = some v → validShape v = true := by
  intro s v h
  unfold regexBranch at h
  split at h
  · split at h
    · split at h
      · exact Option.noConfusion h
      · split at h
        · rename_i hvs
          obtain rfl := Option.some.inj h
          exact hvs
        · exact Option.noConfusion h
    · exact Option.noConfusion h
  · exact Option.noConfusion h

theorem parseCandidate_valid : ∀ t v, parseCandidate t = some v → validShape v = true := by
  intro t v h
  cases t with
  | str s =>
    unfold parseCandidate at h
    split at h
    case h_2 =>
      rename_i hcontra
      exact (hcontra s rfl).elim
    split at h
    · split at h
      · exact regexBranch_valid _ v h
      · split at h
        · rename_i hvs
          obtain rfl := Option.some.inj h
          exact hvs
        · exact Option.noConfusion h
    · exact regexBranch_valid _ v h
  | null => simp [parseCandidate] at h
  | bool b => simp [parseCandidate] at h
  | num lex => simp [parseCandidate] at h
  | arr es => simp [parseCandidate] at h
  | obj fs => simp [parseCandidate] at h

theorem extractStep_valid (cur : Option Js) (g : Bool) (c : Js)
    (hcur : ∀ w, cur = some w → validShape w = true) :
    ∀ v, extractStep cur g c = some v → validShape v = true := by
  intro v h
  cases cur with
  | some w =>
    have hw : some w = some v := by simpa [extractStep] using h
    obtain rfl := Option.some.inj hw
    exact hcur w rfl
  | none =>
    simp only [extractStep] at h
    cases g with
    | false => simp at h
    | true =>
      simp only [if_true] at h
      exact parseCandidate_valid _ _ (by simpa using h)

theorem stepsScanE_ok : ∀ (steps : List Js) (cur : Option Js),
    (∀ s ∈ steps, isNullJs s = false) →
    (∀ w, cur = some w → validShape w = true) →
    ∃ r, stepsScanE steps cur = .ok r ∧
      ∀ w, r = some w → validShape w = true := by
  intro steps
  induction steps with
  | nil => intro cur hn hv; exact ⟨cur, rfl, hv⟩
  | cons s rest ih =>
    intro cur hn hv
    cases cur with
    | some v => exact ⟨some v, rfl, hv⟩
    | none =>
      have hs : isNullJs s = false := hn s (List.mem_cons_self s rest)
      have hrest : ∀ s2 ∈ rest, isNullJs s2 = false :=
        fun s2 h2 => hn s2 (List.mem_cons_of_mem s h2)
      simp only [stepsScanE]
      rw [if_neg (by simp [hs])]
      by_cases hmc : stepMC s = true
      · rw [if_pos hmc]
        exact ih _ hrest (fun w hw => parseCandidate_valid _ w hw)
      · rw [if_neg hmc]
        exact ih _ hrest (fun w hw => Option.noConfusion hw)

theorem extractChain4_valid : ∀ resp v, extractChain4 resp = some v →
    validShape v = true := by
  intro resp v h
  have h0 : ∀ (w : Js), (none : Option Js) = some w → validShape w = true := by
    intro w hw; exact Option.noConfusion hw
  unfold extractChain4 at h
  exact extractStep_valid _ _ _ (extractStep_valid _ _ _ (extractStep_valid _ _ _
    (extractStep_valid _ _ _ h0))) v h

theorem finishExtract_valid (resp : Js) (cur : Option Js)
    (hcur : ∀ w, cur = some w → validShape w = true) :
    finishExtract resp cur = none ∨
      ∃ r, finishExtract resp cur = some r ∧ validShape r = true := by
  have h6 : ∀ w, (match cur with
      | none => parseCandidate (.str (stringify resp))
      | some v => some v) = some w → validShape w = true := by
    intro w hw
    cases cur with
    | none => exact parseCandidate_valid _ w hw
    | some v =>
      obtain rfl := Option.some.inj hw
      exact hcur _ rfl
  unfold finishExtract
  cases h6r : (match cur with
      | none => parseCandidate (.str (stringify resp))
      | some v => some v) with
  | none => exact Or.inl rfl
  | some v =>
    have hv := h6 v h6r
    cases v with
    | str s =>
      simp [validShape, jsGet, jsTruthy] at hv
    | null => exact Or.inr ⟨.null, rfl, hv⟩
    | bool b => exact Or.inr ⟨.bool b, rfl, hv⟩
    | num lex => exact Or.inr ⟨.num lex, rfl, hv⟩
    | arr es => exact Or.inr ⟨.arr es, rfl, hv⟩
    | obj fs => exact Or.inr ⟨.obj fs, rfl, hv⟩

/-- C2 (amended): on every payload other than null whose steps array, when
the scan reaches it, holds no null element, the strategy chain never throws
past its boundary — every parse failure inside a strategy is caught and
advances to the next — and whenever no strategy recovers a record whose
reaction field (`feedback_text`) or rating field (`relatability`) is truthy,
the extraction returns null; equivalently any non-null result passed that
shape test, so every unparseable such payload yields null.  (On a null
payload, or when the scan reaches a null steps element, the chain raises a
TypeError that escapes to the enclosing worker catch — see the
counterexample.) -/
theorem extractSafeOnCleanPayloads (resp : Js)
    (hnn : isNullJs resp = false)
    (hsteps : ∀ steps : List Js, jsGet resp "steps" = some (Js.arr steps) →
      ∀ s ∈ steps, isNullJs s = false) :
    extractE resp = .ok none ∨
      ∃ r, extractE resp = .ok (some r) ∧ validShape r = true := by
  have hne : ¬(isNullJs resp = true) := by simp [hnn]
  cases h4 : extractChain4 resp with
  | some v =>
    have hv := extractChain4_valid resp v h4
    have e : extractE resp = .ok (finishExtract resp (some v)) := by
      unfold extractE
      rw [if_neg hne, h4]
    rcases finishExtract_valid resp (some v)
        (fun w hw => (Option.some.inj hw) ▸ hv) with hn | ⟨r, hr, hvr⟩
    · exact Or.inl (by rw [e, hn])
    · exact Or.inr ⟨r, by rw [e, hr], hvr⟩
  | none =>
    cases hst : jsGet resp "steps" with
    | none =>
      have e : extractE resp = .ok (finishExtract resp none) := by
        unfold extractE
        rw [if_neg hne, h4, hst]
      rcases finishExtract_valid resp none
          (fun w hw => Option.noConfusion hw) with hn | ⟨r, hr, hvr⟩
      · exact Or.inl (by rw [e, hn])
      · exact Or.inr ⟨r, by rw [e, hr], hvr⟩
    | some w =>
      cases w with
      | arr steps =>
        obtain ⟨r5, hr5, hinv⟩ := stepsScanE_ok steps none
          (hsteps steps hst) (fun w hw => Option.noConfusion hw)
        have e : extractE resp = .ok (finishExtract resp r5) := by
          unfold extractE
          rw [if_neg hne, h4, hst]
          show Except.map (finishExtract resp) (stepsScanE steps none) =
            Except.ok (finishExtract resp r5)
          rw [hr5]
          rfl
        rcases finishExtract_valid resp r5 hinv with hn | ⟨r, hr, hvr⟩
        · exact Or.inl (by rw [e, hn])
        · exact Or.inr ⟨r, by rw [e, hr], hvr⟩
      | null =>
        have e : extractE resp = .ok (finishExtract resp none) := by
          unfold extractE
          rw [if_neg hne, h4, hst]
        rcases finishExtract_valid resp none
            (fun w hw => Option.noConfusion hw) with hn | ⟨r, hr, hvr⟩
        · exact Or.inl (by rw [e, hn])
        · exact Or.inr ⟨r, by rw [e, hr], hvr⟩
      | bool b =>
        have e : extractE resp = .ok (finishExtract resp none) := by
          unfold extractE
          rw [if_neg hne, h4, hst]
        rcases finishExtract_valid resp none
            (fun w hw => Option.noConfusion hw) with hn | ⟨r, hr, hvr⟩
        · exact Or.inl (by rw [e, hn])
        · exact Or.inr ⟨r, by rw [e, hr], hvr⟩
      | num lex =>
        have e : extractE resp = .ok (finishExtract resp none) := by
          unfold extractE
          rw [if_neg hne, h4, hst]
        rcases finishExtract_valid resp none
            (fun w hw => Option.noConfusion hw) with hn | ⟨r, hr, hvr⟩
        · exact Or.inl (by rw [e, hn])
        · exact Or.inr ⟨r, by rw [e, hr], hvr⟩
      | str s =>
        have e : extractE resp = .ok (finishExtract resp none) := by
          unfold extractE
          rw [if_neg hne, h4, hst]
        rcases finishExtract_valid resp none
            (fun w hw => Option.noConfusion hw) with hn | ⟨r, hr, hvr⟩
        · exact Or.inl (by rw [e, hn])
        · exact Or.inr ⟨r, by rw [e, hr], hvr⟩
      | obj fs =>
        have e : extractE resp = .ok (finishExtract resp none) := by
          unfold extractE
          rw [if_neg hne, h4, hst]
        rcases finishExtract_valid resp none
            (fun w hw => Option.noConfusion hw) with hn | ⟨r, hr, hvr⟩
        · exact Or.inl (by rw [e, hn])
        · exact Or.inr ⟨r, by rw [e, hr], hvr⟩

theorem extractSafeOnCleanPayloads_witness :
    isNullJs (Js.str "x") = false ∧
    (extractE (Js.str "x") = .ok none ∨
      ∃ r, extractE (Js.str "x") = .ok (some r) ∧ validShape r = true) :=
  ⟨rfl, extractSafeOnCleanPayloads (Js.str "x") rfl
    (fun _ hs => Option.noConfusion hs)⟩

/-- C2 (counterexample): the chain does throw past its boundary — on a null
payload the first guard `agentResponse.output` (index.js line 156) raises a
TypeError, and a null element of the steps array raises one at `step.type`
(line 167); both escape to the worker catch instead of returning null. -/
theorem extractThrows_counterexample :
    extractE Js.null = .error () ∧
    extractE (Js.obj [("steps", Js.arr [Js.null])]) = .error () :=
  ⟨rfl, rfl⟩

/-! ### Association-list lookup and assignment (C7 infrastructure) -/

theorem lookupLast_append_single (l : List (String × Js)) (k : String) (v : Js) :
    lookupLast (l ++ [(k, v)]) k = some v := by
  induction l with
  | nil => simp [lookupLast]
  | cons p rest ih => simp [lookupLast, ih]

theorem lookupLast_eq_none_of_not_any (l : List (String × Js)) (k : String)
    (h : l.any (fun p => p.1 == k) = false) : lookupLast l k = none := by
  induction l with
  | nil => rfl
  | cons p rest ih =>
    simp only [List.any_cons, Bool.or_eq_false_iff] at h
    simp [lookupLast, ih h.2, h.1]

theorem map_update_of_not_any (l : List (String × Js)) (k : String) (v : Js)
    (h : l.any (fun p => p.1 == k) = false) :
    l.map (fun p => if p.1 == k then (p.1, v) else p) = l := by
  induction l with
  | nil => rfl
  | cons p rest ih =>
    simp only [List.any_cons, Bool.or_eq_false_iff] at h
    simp only [List.map_cons]
    rw [if_neg (by simp [h.1]), ih h.2]

theorem lookupLast_map_update_self (l : List (String × Js)) (k : String) (v : Js)
    (h : l.any (fun p => p.1 == k) = true) :
    lookupLast (l.map (fun p => if p.1 == k then (p.1, v) else p)) k = some v := by
  induction l with
  | nil => simp at h
  | cons p rest ih =>
    simp only [List.any_cons, Bool.or_eq_true] at h
    simp only [List.map_cons]
    by_cases hp : (p.1 == k) = true
    · rw [if_pos hp]
      by_cases hr : rest.any (fun p => p.1 == k) = true
      · simp only [lookupLast]
        rw [ih hr]
      · rw [Bool.not_eq_true] at hr
        have hnone : lookupLast (rest.map
            (fun p => if p.1 == k then (p.1, v) else p)) k = none := by
          rw [map_update_of_not_any rest k v hr]
          exact lookupLast_eq_none_of_not_any rest k hr
        simp only [lookupLast]
        rw [hnone, if_pos hp]
    · have hr : rest.any (fun p => p.1 == k) = true := by
        rcases h with h1 | h2
        · exact absurd h1 hp
        · exact h2
      rw [if_neg hp]
      simp only [lookupLast]
      rw [ih hr]

theorem lookupLast_map_update_ne (l : List (String × Js)) (k k2 : String) (v : Js)
    (hne : (k == k2) = false) :
    lookupLast (l.map (fun p => if p.1 == k then (p.1, v) else p)) k2 =
      lookupLast l k2 := by
  induction l with
  | nil => rfl
  | cons p rest ih =>
    simp only [List.map_cons]
    by_cases hp : (p.1 == k) = true
    · have hpk : p.1 = k := by simpa using hp
      have hp2 : ¬((p.1 == k2) = true) := by rw [hpk]; simp [hne]
      rw [if_pos hp]
      cases hlr : lookupLast rest k2 with
      | none =>
        simp only [lookupLast]
        rw [ih, hlr, if_neg hp2, if_neg hp2]
      | some w =>
        simp only [lookupLast]
        rw [ih, hlr]
    · rw [if_neg hp]
      simp only [lookupLast]
      rw [ih]

theorem lookupLast_append_single_ne (l : List (String × Js)) (k k2 : String)
    (v : Js) (hne : (k == k2) = false) :
    lookupLast (l ++ [(k, v)]) k2 = lookupLast l k2 := by
  induction l with
  | nil => simp [lookupLast, hne]
  | cons p rest ih => simp [lookupLast, ih]

theorem lookupLast_assocSet_self (l : List (String × Js)) (k : String) (v : Js) :
    lookupLast (assocSet l k v) k = some v := by
  unfold assocSet
  split
  · rename_i h; exact lookupLast_map_update_self l k v h
  · exact lookupLast_append_single l k v

theorem lookupLast_assocSet_ne (l : List (String × Js)) (k k2 : String) (v : Js)
    (hne : (k == k2) = false) :
    lookupLast (assocSet l k v) k2 = lookupLast l k2 := by
  unfold assocSet
  split
  · exact lookupLast_map_update_ne l k k2 v hne
  · exact lookupLast_append_single_ne l k k2 v hne

theorem mapWithIdx_length (f : Nat → α → β) : ∀ (n : Nat) (l : List α),
    (mapWithIdx f n l).length = l.length := by
  intro n l
  induction l generalizing n with
  | nil => rfl
  | cons a as ih => simp [mapWithIdx, ih]

theorem mapWithIdx_get (f : Nat → α → β) : ∀ (l : List α) (n i : Nat)
    (h : i < (mapWithIdx f n l).length) (h2 : i < l.length),
    (mapWithIdx f n l).get ⟨i, h⟩ = f (n + i) (l.get ⟨i, h2⟩) := by
  intro l
  induction l with
  | nil => intro n i h h2; simp [mapWithIdx] at h
  | cons a as ih =>
    intro n i h h2
    cases i with
    | zero => simp [mapWithIdx]
    | succ j =>
      have hj : j < (mapWithIdx f (n + 1) as).length := by
        simpa [mapWithIdx] using h
      have hj2 : j < as.length := by simpa using h2
      have := ih (n + 1) j hj hj2
      simp only [mapWithIdx, List.get]
      rw [this]
      congr 1
      omega

/-- C7: on the worker success path the orchestrator is authoritative over
identity — `agent_mode` is forced to the requested role id whatever the
extracted object `fs` claimed, `feedback_id` is freshly minted from the role
and the clock, and every embedded concept becomes a Stage-2 record whose
`concept_id` is derived from the parent feedback id plus its ordinal and
which carries a `parent_feedback_id` back-reference. -/
theorem workerForcesIdentity (fs : List (String × Js)) (roleId setId : String)
    (now : Nat) :
    jsGet (mintStage1 roleId now (.obj fs)) "agent_mode" = some (.str roleId) ∧
    jsGet (mintStage1 roleId now (.obj fs)) "feedback_id" =
      some (.str (mkFeedbackId roleId now)) ∧
    ∀ (i : Nat) (h : i < (mintStage2 setId (mkFeedbackId roleId now) (.obj fs)).length),
      jsGet ((mintStage2 setId (mkFeedbackId roleId now) (.obj fs)).get ⟨i, h⟩)
          "concept_id" =
        some (.str ("c_" ++ mkFeedbackId roleId now ++ "_" ++ toString i)) ∧
      jsGet ((mintStage2 setId (mkFeedbackId roleId now) (.obj fs)).get ⟨i, h⟩)
          "parent_feedback_id" = some (.str (mkFeedbackId roleId now)) := by
  refine ⟨?_, ?_, ?_⟩
  · exact lookupLast_assocSet_self _ "agent_mode" _
  · have h1 : jsGet (mintStage1 roleId now (.obj fs)) "feedback_id" =
        lookupLast (assocSet fs "feedback_id" (.str (mkFeedbackId roleId now)))
          "feedback_id" :=
      lookupLast_assocSet_ne _ "agent_mode" "feedback_id" _ (by decide)
    rw [h1]
    exact lookupLast_assocSet_self _ "feedback_id" _
  · intro i h
    cases hc : jsGet (Js.obj fs) "concepts" with
    | none =>
      have e : mintStage2 setId (mkFeedbackId roleId now) (.obj fs) = [] := by
        unfold mintStage2; rw [hc]
      rw [e] at h; simp at h
    | some w =>
      cases w with
      | arr cs =>
        have e : mintStage2 setId (mkFeedbackId roleId now) (.obj fs) =
            mapWithIdx (fun i c => Js.obj [
              ("concept_id", .str ("c_" ++ mkFeedbackId roleId now ++ "_" ++
                toString i)),
              ("parent_feedback_id", .str (mkFeedbackId roleId now)),
              ("set_id", .str setId),
              ("angle_name", getField c "angle_name"),
              ("explanation", getField c "explanation"),
              ("exploration_direction", getField c "exploration_direction")])
              0 cs := by
          unfold mintStage2; rw [hc]
        have h2 : i < cs.length := by
          have h' := h
          rw [e, mapWithIdx_length] at h'
          exact h'
        have hg := List.get_of_eq e ⟨i, h⟩
        rw [mapWithIdx_get _ cs 0 i _ h2] at hg
        rw [hg]
        simp only [Nat.zero_add]
        exact ⟨rfl, rfl⟩
      | null =>
        have e : mintStage2 setId (mkFeedbackId roleId now) (.obj fs) = [] := by
          unfold mintStage2; rw [hc]
        rw [e] at h; simp at h
      | bool b =>
        have e : mintStage2 setId (mkFeedbackId roleId now) (.obj fs) = [] := by
          unfold mintStage2; rw [hc]
        rw [e] at h; simp at h
      | num lex =>
        have e : mintStage2 setId (mkFeedbackId roleId now) (.obj fs) = [] := by
          unfold mintStage2; rw [hc]
        rw [e] at h; simp at h
      | str s =>
        have e : mintStage2 setId (mkFeedbackId roleId now) (.obj fs) = [] := by
          unfold mintStage2; rw [hc]
        rw [e] at h; simp at h
      | obj fs2 =>
        have e : mintStage2 setId (mkFeedbackId roleId now) (.obj fs) = [] := by
          unfold mintStage2; rw [hc]
        rw [e] at h; simp at h

theorem workerForcesIdentity_witness :
    (0 < (mintStage2 "s1" (mkFeedbackId "the_fan" 7)
        (.obj [("agent_mode", .str "impostor"),
          ("concepts", .arr [.obj [("angle_name", .str "a")]])])).length) ∧
    jsGet (mintStage1 "the_fan" 7
        (.obj [("agent_mode", .str "impostor"),
          ("concepts", .arr [.obj [("angle_name", .str "a")]])]))
      "agent_mode" = some (.str "the_fan") ∧
    jsGet ((mintStage2 "s1" (mkFeedbackId "the_fan" 7)
        (.obj [("agent_mode", .str "impostor"),
          ("concepts", .arr [.obj [("angle_name", .str "a")]])])).get
        ⟨0, by decide⟩) "parent_feedback_id" =
      some (.str (mkFeedbackId "the_fan" 7)) := by
  refine ⟨by decide, ?_, ?_⟩
  · exact (workerForcesIdentity [("agent_mode", .str "impostor"),
      ("concepts", .arr [.obj [("angle_name", .str "a")]])] "the_fan" "s1" 7).1
  · exact ((workerForcesIdentity [("agent_mode", .str "impostor"),
      ("concepts", .arr [.obj [("angle_name", .str "a")]])] "the_fan" "s1" 7).2.2
        0 (by decide)).2

/-! ### Session event-stream lemmas (C1 and C3 infrastructure) -/

theorem countDone_workerEvents : ∀ (o : List WorkerOutcome) (n1 n2 : Nat),
    (workerEvents o n1 n2).count SEvent.done = 0 := by
  intro o
  induction o with
  | nil => intro n1 n2; rfl
  | cons a rest ih =>
    intro n1 n2
    cases a with
    | threw => exact ih n1 n2
    | noRecord => exact ih n1 n2
    | pushedThenThrew r => exact ih (n1 + 1) (n2 + partialConcepts r)
    | completed r => simp [workerEvents, List.count_cons, ih]

theorem countDone_analyzeEvents_true (o : List WorkerOutcome) (rE rO : Bool) :
    (analyzeEvents o true rE rO).count SEvent.done = 1 := by
  by_cases hcond : (rE && !((analyzeStage1 o).length == 0)) = true
  · cases rO <;>
      simp [analyzeEvents, hcond, List.count_append, List.count_cons,
        countDone_workerEvents]
  · rw [Bool.not_eq_true] at hcond
    simp [analyzeEvents, hcond, List.count_append, List.count_cons,
      countDone_workerEvents]

theorem lastEvent_analyzeEvents_true (o : List WorkerOutcome) (rE rO : Bool) :
    (analyzeEvents o true rE rO).getLast? = some SEvent.done := by
  obtain ⟨L, hL⟩ : ∃ L, analyzeEvents o true rE rO = L ++ [SEvent.done] := by
    refine ⟨.start :: .progress :: (workerEvents o 0 0 ++
      (if rE && !((analyzeStage1 o).length == 0) then
        .progress :: (if rO then [.resultStage3] else [.errorEv])
      else [])), ?_⟩
    simp [analyzeEvents, List.append_assoc]
  rw [hL, List.getLast?_concat]

theorem analyzeEvents_false_eq (o : List WorkerOutcome) (rE rO : Bool) :
    analyzeEvents o false rE rO =
      (SEvent.start :: SEvent.progress :: workerEvents o 0 0) ++
        [SEvent.errorEv] := by
  simp [analyzeEvents]

/-- C1 (amended): for every accepted submission, on every path where the
Stage-1 persistence step and event transmission succeed — including both
synthesis-failure branches — the streamed sequence contains exactly one done
event and it is terminal; when the Stage-1 persistence call fails, the
session emits a session-level error event and closes without any done
event. -/
theorem doneDiscipline (o : List WorkerOutcome) (rE rO : Bool) :
    ((analyzeEvents o true rE rO).count SEvent.done = 1 ∧
      (analyzeEvents o true rE rO).getLast? = some SEvent.done) ∧
    ((analyzeEvents o false rE rO).count SEvent.done = 0 ∧
      (analyzeEvents o false rE rO).getLast? = some SEvent.errorEv) := by
  refine ⟨⟨countDone_analyzeEvents_true o rE rO,
    lastEvent_analyzeEvents_true o rE rO⟩, ?_, ?_⟩
  · rw [analyzeEvents_false_eq]
    simp [List.count_append, List.count_cons, countDone_workerEvents]
  · rw [analyzeEvents_false_eq, List.getLast?_concat]

/-- C1 (counterexample): on the path where the Stage-1 persistence call
throws, the stream ends with the session error event and contains no done
event at all, contradicting "exactly one done event ... including the path
where persistence fails". -/
theorem doneDiscipline_counterexample :
    analyzeEvents [WorkerOutcome.completed (Js.obj []), WorkerOutcome.threw]
        false true true =
      [SEvent.start, SEvent.progress, SEvent.resultStage1 1 0, SEvent.progress,
        SEvent.errorEv] ∧
    (analyzeEvents [WorkerOutcome.completed (Js.obj []), WorkerOutcome.threw]
        false true true).count SEvent.done = 0 := by
  exact ⟨rfl, rfl⟩

theorem pushed_add_unpushed_length :
    ∀ (l : List WorkerOutcome),
      (l.filterMap pushedRecord).length +
        (l.filter (fun w => !(producedRecord w))).length = l.length := by
  intro l
  induction l with
  | nil => rfl
  | cons a rest ih =>
    cases a with
    | threw =>
      show (rest.filterMap pushedRecord).length +
          (WorkerOutcome.threw ::
            rest.filter (fun w => !(producedRecord w))).length =
        rest.length + 1
      simp only [List.length_cons]
      omega
    | noRecord =>
      show (rest.filterMap pushedRecord).length +
          (WorkerOutcome.noRecord ::
            rest.filter (fun w => !(producedRecord w))).length =
        rest.length + 1
      simp only [List.length_cons]
      omega
    | pushedThenThrew r =>
      show (r :: rest.filterMap pushedRecord).length +
          (rest.filter (fun w => !(producedRecord w))).length =
        rest.length + 1
      simp only [List.length_cons]
      omega
    | completed r =>
      show (r :: rest.filterMap pushedRecord).length +
          (rest.filter (fun w => !(producedRecord w))).length =
        rest.length + 1
      simp only [List.length_cons]
      omega

/-- C3 (amended): for a fan-out over 6 perspectives, the accumulated Stage-1
records are exactly the records of the workers that reached the push at
index.js line 192 — 6 − U of them, where U counts the workers that produced
no record at all (a thrown call, a throwing extraction, or a null
extraction); every pushed record survives any set of sibling failures, both
for fully completed workers and for workers whose concepts loop threw after
the push.  Those last workers are caught and logged as failed perspectives
while their record stays accumulated, so the record count can exceed 6 minus
the count of caught failures — the original "exactly 6 − F records for F
failures" reading fails, see the counterexample.  With persistence
succeeding, exactly one done event is still emitted. -/
theorem fanOutIsolation (o : List WorkerOutcome) (rE rO : Bool)
    (h : o.length = 6) :
    (analyzeStage1 o).length =
      6 - (o.filter (fun w => !(producedRecord w))).length ∧
    (∀ r : Js, WorkerOutcome.completed r ∈ o → r ∈ analyzeStage1 o) ∧
    (∀ r : Js, WorkerOutcome.pushedThenThrew r ∈ o → r ∈ analyzeStage1 o) ∧
    (analyzeEvents o true rE rO).count SEvent.done = 1 := by
  refine ⟨?_, ?_, ?_, countDone_analyzeEvents_true o rE rO⟩
  · have := pushed_add_unpushed_length o
    simp only [analyzeStage1]
    omega
  · intro r hr
    simp only [analyzeStage1, List.mem_filterMap]
    exact ⟨.completed r, hr, rfl⟩
  · intro r hr
    simp only [analyzeStage1, List.mem_filterMap]
    exact ⟨.pushedThenThrew r, hr, rfl⟩

theorem fanOutIsolation_witness :
    ([WorkerOutcome.completed (Js.obj []), WorkerOutcome.threw,
      WorkerOutcome.completed (Js.obj []),
      WorkerOutcome.pushedThenThrew (Js.obj []), WorkerOutcome.noRecord,
      WorkerOutcome.completed (Js.obj [])] : List WorkerOutcome).length = 6 ∧
    (analyzeStage1 [WorkerOutcome.completed (Js.obj []), WorkerOutcome.threw,
      WorkerOutcome.completed (Js.obj []),
      WorkerOutcome.pushedThenThrew (Js.obj []), WorkerOutcome.noRecord,
      WorkerOutcome.completed (Js.obj [])]).length =
      6 - (([WorkerOutcome.completed (Js.obj []), WorkerOutcome.threw,
        WorkerOutcome.completed (Js.obj []),
        WorkerOutcome.pushedThenThrew (Js.obj []), WorkerOutcome.noRecord,
        WorkerOutcome.completed (Js.obj [])] : List WorkerOutcome).filter
          (fun w => !(producedRecord w))).length ∧
    (analyzeEvents [WorkerOutcome.completed (Js.obj []), WorkerOutcome.threw,
      WorkerOutcome.completed (Js.obj []),
      WorkerOutcome.pushedThenThrew (Js.obj []), WorkerOutcome.noRecord,
      WorkerOutcome.completed (Js.obj [])] true true true).count
        SEvent.done = 1 :=
  ⟨rfl,
    (fanOutIsolation [WorkerOutcome.completed (Js.obj []), WorkerOutcome.threw,
      WorkerOutcome.completed (Js.obj []),
      WorkerOutcome.pushedThenThrew (Js.obj []), WorkerOutcome.noRecord,
      WorkerOutcome.completed (Js.obj [])] true true rfl).1,
    (fanOutIsolation [WorkerOutcome.completed (Js.obj []), WorkerOutcome.threw,
      WorkerOutcome.completed (Js.obj []),
      WorkerOutcome.pushedThenThrew (Js.obj []), WorkerOutcome.noRecord,
      WorkerOutcome.completed (Js.obj [])] true true rfl).2.2.2⟩

/-- C3 (counterexample): a worker whose extracted record carries a null
concept is pushed into the accumulator at index.js line 192 before
`concept.angle_name` (line 201) throws; the worker catch fires and the
perspective is logged as failed, yet its record stays accumulated.  The
outcome is reachable: `workerRun` on a payload whose output embeds
`"concepts":[null]` is exactly this push-then-throw case.  With five
completed siblings and one such worker, the caught-failure count is 1 while
6 records are accumulated — not 6 − 1. -/
theorem fanOutIsolation_counterexample :
    workerRun "the_fan" 7
        (.ok (Js.obj [("output",
          Js.str "\x7b\"feedback_text\":\"ok\",\"concepts\":[null]\x7d")])) =
      WorkerOutcome.pushedThenThrew (Js.obj
        [("feedback_text", .str "ok"), ("concepts", .arr [Js.null]),
         ("feedback_id", .str "f_the_fan_7"),
         ("agent_mode", .str "the_fan")]) ∧
    (([WorkerOutcome.completed (Js.obj []), WorkerOutcome.completed (Js.obj []),
      WorkerOutcome.completed (Js.obj []), WorkerOutcome.completed (Js.obj []),
      WorkerOutcome.completed (Js.obj []),
      WorkerOutcome.pushedThenThrew (Js.obj
        [("feedback_text", .str "ok"), ("concepts", .arr [Js.null]),
         ("feedback_id", .str "f_the_fan_7"),
         ("agent_mode", .str "the_fan")])] : List WorkerOutcome).filter
        isCaught).length = 1 ∧
    (analyzeStage1 [WorkerOutcome.completed (Js.obj []),
      WorkerOutcome.completed (Js.obj []), WorkerOutcome.completed (Js.obj []),
      WorkerOutcome.completed (Js.obj []), WorkerOutcome.completed (Js.obj []),
      WorkerOutcome.pushedThenThrew (Js.obj
        [("feedback_text", .str "ok"), ("concepts", .arr [Js.null]),
         ("feedback_id", .str "f_the_fan_7"),
         ("agent_mode", .str "the_fan")])]).length = 6 ∧
    ¬ ((6 : Nat) = 6 - 1) := by
  exact ⟨rfl, rfl, rfl, by decide⟩

/-! ### Synthesis degenerate path (C5) and synthesis failure default (C6) -/

/-- C5: whenever synthesis is invoked with fewer than 2 Stage-1 records, the
external text-generation capability is never called (the Bool component of
`getReview` is false) and the fixed degenerate record is returned, whose
divergence score is 0 and risk level "low" — whatever the external call
would have produced. -/
theorem synthesisSkipsUnderTwo (stage1 : List Js) (call : Except Unit Js)
    (h : stage1.length < 2) :
    getReview stage1 call = (false, .ok degenerateReview) ∧
    lookupLast degenerateReview "divergence_score" = some (.num "0") ∧
    lookupLast degenerateReview "risk_level" = some (.str "low") := by
  refine ⟨?_, rfl, rfl⟩
  unfold getReview
  rw [if_pos h]

theorem synthesisSkipsUnderTwo_witness :
    ([] : List Js).length < 2 ∧
    getReview [] (.ok .null) = (false, .ok degenerateReview) :=
  ⟨by decide, (synthesisSkipsUnderTwo [] (.ok .null) (by decide)).1⟩

/-- C6 (amended): on a non-null response where the multi-strategy extraction
fails entirely without throwing — the steps scan merges nothing and the
fallback parse merges nothing — `parseReviewerResponse` returns the fixed
default record (divergence score 0, risk level "unknown", placeholder
explanation and recommendation) rather than propagating an error, with the
conflict label "none detected", the lower-cased normalization of the
internal default "None detected".  When the steps scan itself throws (a null
steps element makes `step.type` throw inside the try), the catch returns the
defaults accumulated so far, skipping the normalization — the label stays
"None detected" verbatim.  On a null response the `Object.keys` log before
the try throws out of the parser entirely. -/
theorem synthesisFailureDefault (resp : Js) :
    (isNullJs resp = false →
      applyStepsE resp defaultReview = .ok defaultReview →
      applyFallback resp defaultReview = defaultReview →
      parseReviewerResponse resp = .ok
        [("reasoning", .str "Analysis pending..."),
         ("divergence_score", .num "0"),
         ("risk_level", .str "unknown"),
         ("primary_conflict", .str "none detected"),
         ("conflict_summary", .str "Insufficient data for analysis"),
         ("recommendation", .str "No recommendation available")]) ∧
    (isNullJs resp = false →
      applyStepsE resp defaultReview = .error defaultReview →
      parseReviewerResponse resp = .ok defaultReview) ∧
    parseReviewerResponse Js.null = .error () := by
  refine ⟨?_, ?_, rfl⟩
  · intro hnn h1 h2
    have hne : ¬(isNullJs resp = true) := by simp [hnn]
    have e : parseReviewerResponse resp =
        .ok (normalizePcField (applyFallback resp defaultReview)) := by
      unfold parseReviewerResponse
      rw [if_neg hne, h1]
      rfl
    rw [e, h2]
    rfl
  · intro hnn h1
    have hne : ¬(isNullJs resp = true) := by simp [hnn]
    unfold parseReviewerResponse
    rw [if_neg hne, h1]

theorem synthesisFailureDefault_witness :
    (isNullJs (Js.str "garbage") = false ∧
      applyStepsE (Js.str "garbage") defaultReview = .ok defaultReview ∧
      applyFallback (Js.str "garbage") defaultReview = defaultReview ∧
      parseReviewerResponse (Js.str "garbage") = .ok
        [("reasoning", .str "Analysis pending..."),
         ("divergence_score", .num "0"),
         ("risk_level", .str "unknown"),
         ("primary_conflict", .str "none detected"),
         ("conflict_summary", .str "Insufficient data for analysis"),
         ("recommendation", .str "No recommendation available")]) ∧
    (isNullJs (Js.obj [("steps", Js.arr [Js.null])]) = false ∧
      applyStepsE (Js.obj [("steps", Js.arr [Js.null])]) defaultReview =
        .error defaultReview ∧
      parseReviewerResponse (Js.obj [("steps", Js.arr [Js.null])]) =
        .ok defaultReview) :=
  ⟨⟨rfl, rfl, rfl, (synthesisFailureDefault (Js.str "garbage")).1 rfl rfl rfl⟩,
   ⟨rfl, rfl,
    (synthesisFailureDefault (Js.obj [("steps", Js.arr [Js.null])])).2.1
      rfl rfl⟩⟩

/-- C6 (counterexample): the failure default is not always returned, and not
always normalized.  A null response makes `Object.keys(agentResponse)`
(reviewer module line 141), placed before the try, throw out of the parser.
And on the response whose steps array holds a null element, `step.type`
throws inside the try; the catch at line 209 returns the defaults as
accumulated, skipping the normalization at lines 203-206 — the conflict
label comes back as the verbatim "None detected", not the normalized
"none detected" of the clean failure path. -/
theorem synthesisFailureDefault_counterexample :
    parseReviewerResponse Js.null = .error () ∧
    parseReviewerResponse (Js.obj [("steps", Js.arr [Js.null]),
        ("output", Js.str "garbage")]) = .ok defaultReview ∧
    lookupLast defaultReview "primary_conflict" =
      some (.str "None detected") ∧
    lookupLast defaultReview "primary_conflict" ≠
      some (.str "none detected") := by
  refine ⟨rfl, rfl, rfl, ?_⟩
  intro hcontra
  rw [show lookupLast defaultReview "primary_conflict" =
      some (Js.str "None detected") from rfl] at hcontra
  have h1 := Option.some.inj hcontra
  rw [Js.str.injEq] at h1
  exact absurd h1 (by decide)

/-! ### Conflict canonicalization order (C4 infrastructure) -/

theorem lexLe_antisymm : ∀ (x y : List Char),
    lexLe x y = true → lexLe y x = true → x = y := by
  intro x
  induction x with
  | nil =>
    intro y h1 h2
    cases y with
    | nil => rfl
    | cons b bs => simp [lexLe] at h2
  | cons a as ih =>
    intro y h1 h2
    cases y with
    | nil => simp [lexLe] at h1
    | cons b bs =>
      simp only [lexLe] at h1 h2
      by_cases hab : (a == b) = true
      · have heq : a = b := by simpa using hab
        have hba : (b == a) = true := by simp [heq]
        rw [if_pos hab] at h1
        rw [if_pos hba] at h2
        rw [heq, ih bs h1 h2]
      · have hne : a ≠ b := by simpa using hab
        have hba : ¬((b == a) = true) := by
          simp only [beq_iff_eq]
          exact Ne.symm hne
        rw [if_neg hab] at h1
        rw [if_neg hba] at h2
        have h1l : a < b := of_decide_eq_true h1
        have h2l : b < a := of_decide_eq_true h2
        exact absurd h2l (lt_asymm h1l)

theorem lexLe_total_of_not : ∀ (x y : List Char),
    lexLe x y = false → lexLe y x = true := by
  intro x
  induction x with
  | nil => intro y h; simp [lexLe] at h
  | cons a as ih =>
    intro y h
    cases y with
    | nil => simp [lexLe]
    | cons b bs =>
      simp only [lexLe] at h ⊢
      by_cases hab : (a == b) = true
      · have heq : a = b := by simpa using hab
        have hba : (b == a) = true := by simp [heq]
        rw [if_pos hab] at h
        rw [if_pos hba]
        exact ih bs h
      · have hne : a ≠ b := by simpa using hab
        have hba : ¬((b == a) = true) := by
          simp only [beq_iff_eq]
          exact Ne.symm hne
        rw [if_neg hab] at h
        rw [if_neg hba]
        have hnl : ¬(a < b) := of_decide_eq_false h
        have hlt : b < a := by
          rcases lt_trichotomy a b with h1 | h1 | h1
          · exact absurd h1 hnl
          · exact absurd h1 hne
          · exact h1
        exact decide_eq_true hlt

theorem sortPartsL_pair_comm (x y : List Char) :
    sortPartsL [x, y] = sortPartsL [y, x] := by
  have exy : sortPartsL [x, y] = if lexLe x y then [x, y] else [y, x] := by
    by_cases h : lexLe x y = true <;> simp [sortPartsL, insertLe, h]
  have eyx : sortPartsL [y, x] = if lexLe y x then [y, x] else [x, y] := by
    by_cases h : lexLe y x = true <;> simp [sortPartsL, insertLe, h]
  rw [exy, eyx]
  by_cases hxy : lexLe x y = true
  · by_cases hyx : lexLe y x = true
    · rw [if_pos hxy, if_pos hyx, lexLe_antisymm x y hxy hyx]
    · rw [if_pos hxy, if_neg hyx]
  · by_cases hyx : lexLe y x = true
    · rw [if_neg hxy, if_pos hyx]
    · rw [Bool.not_eq_true] at hxy
      exact absurd (lexLe_total_of_not x y hxy) hyx

/-- C4 (amended): conflict canonicalization lower-cases, strips periods (only
periods — other punctuation such as commas survives), trims and
alphabetically sorts the two operands of a two-party label and rejoins them
with " vs ": it is order-independent on every two-party label whose
normalized operands split cleanly around a single " vs " separator, and on
the spec's example labels it is idempotent:
canon("Literal vs The Fan") = canon("The Fan vs. Literal")
= canon(canon("Literal vs The Fan")) = "literal vs the fan".  Idempotence
does not extend to arbitrary strings (see the counterexample). -/
theorem conflictCanonOrderIndep (a b : String)
    (ha : hasVsSep ((conflictPhase1 (a ++ " vs " ++ b)).toList) = true)
    (hb : hasVsSep ((conflictPhase1 (b ++ " vs " ++ a)).toList) = true)
    (hsa : splitVs ((conflictPhase1 (a ++ " vs " ++ b)).toList) =
      [(conflictPhase1 a).toList, (conflictPhase1 b).toList])
    (hsb : splitVs ((conflictPhase1 (b ++ " vs " ++ a)).toList) =
      [(conflictPhase1 b).toList, (conflictPhase1 a).toList]) :
    normalizeConflict (a ++ " vs " ++ b) = normalizeConflict (b ++ " vs " ++ a) ∧
    normalizeConflict "Literal vs The Fan" = "literal vs the fan" ∧
    normalizeConflict "The Fan vs. Literal" = "literal vs the fan" ∧
    normalizeConflict (normalizeConflict "Literal vs The Fan") =
      "literal vs the fan" := by
  refine ⟨?_, by decide, by decide, by decide⟩
  simp only [normalizeConflict]
  rw [if_pos ha, if_pos hb, hsa, hsb]
  simp only [List.map_cons, List.map_nil]
  rw [sortPartsL_pair_comm]

/-- C4 (counterexample): canonicalization is not idempotent on every string —
re-canonicalizing "vs b vs a vs" changes it again — and punctuation other
than periods is not stripped (the comma survives). -/
theorem conflictCanon_counterexample :
    normalizeConflict "vs b vs a vs" = "a vs vs vs b" ∧
    normalizeConflict (normalizeConflict "vs b vs a vs") = "a vs b vs vs" ∧
    normalizeConflict (normalizeConflict "vs b vs a vs") ≠
      normalizeConflict "vs b vs a vs" ∧
    normalizeConflict "a, vs b" = "a, vs b" :=
  ⟨by decide, by decide, by decide, by decide⟩

theorem conflictCanonOrderIndep_witness :
    splitVs ((conflictPhase1 ("Literal" ++ " vs " ++ "The Fan")).toList) =
      [(conflictPhase1 "Literal").toList, (conflictPhase1 "The Fan").toList] ∧
    normalizeConflict ("Literal" ++ " vs " ++ "The Fan") =
      normalizeConflict ("The Fan" ++ " vs " ++ "Literal") :=
  ⟨by decide, (conflictCanonOrderIndep "Literal" "The Fan" (by decide)
    (by decide) (by decide) (by decide)).1⟩

/-! ### History pagination (C8) and the aggregation cap (C10) -/

instance : IsTotal HistItem histLe :=
  ⟨fun a b => Nat.le_total (histKey b) (histKey a)⟩

instance : IsTrans HistItem histLe :=
  ⟨fun _ _ _ hab hbc => Nat.le_trans hbc hab⟩

theorem take_two_chunks_eq (l : List HistItem) (hl : l.length = 5) :
    l.take 2 ++ ((l.drop 2).take 2 ++ (l.drop 4).take 2) = l := by
  have e4 : (l.drop 4).take 2 = l.drop 4 :=
    List.take_of_length_le (by rw [List.length_drop, hl]; omega)
  have e34 : l.drop 4 = (l.drop 2).drop 2 := by rw [List.drop_drop]
  rw [e4, e34, List.take_append_drop, List.take_append_drop]

/-- C8: over a fixed 5-item (duplicate-free) history, the three successive
calls `listHistory(2, 0)`, `listHistory(2, 2)`, `listHistory(2, 4)`
concatenate back to the full recency-sorted history (no item repeated or
omitted: the sorted list is a permutation of the aggregation's items), each
slice is recency-ordered, the first two slices are disjoint, and the
reported total is 5. -/
theorem historyPagination (buckets : List HistBucket)
    (h5 : (buckets.map bucketToItem).length = 5)
    (hnd : (buckets.map bucketToItem).Nodup) :
    ((fetchHistory buckets 2 0).1 ++ ((fetchHistory buckets 2 2).1 ++
      (fetchHistory buckets 2 4).1) = histSort (buckets.map bucketToItem)) ∧
    (histSort (buckets.map bucketToItem)).Perm (buckets.map bucketToItem) ∧
    List.Sorted histLe (histSort (buckets.map bucketToItem)) ∧
    List.Sorted histLe (fetchHistory buckets 2 0).1 ∧
    List.Sorted histLe (fetchHistory buckets 2 2).1 ∧
    (fetchHistory buckets 2 0).1.Disjoint (fetchHistory buckets 2 2).1 ∧
    (fetchHistory buckets 2 0).2 = 5 := by
  have hperm : (histSort (buckets.map bucketToItem)).Perm
      (buckets.map bucketToItem) := List.perm_insertionSort histLe _
  have hlen : (histSort (buckets.map bucketToItem)).length = 5 := by
    rw [hperm.length_eq, h5]
  have hsorted : List.Sorted histLe (histSort (buckets.map bucketToItem)) :=
    List.sorted_insertionSort histLe _
  have hfetch : ∀ off : Nat, (fetchHistory buckets 2 off).1 =
      ((histSort (buckets.map bucketToItem)).drop off).take 2 := fun _ => rfl
  have hdisj : (fetchHistory buckets 2 0).1.Disjoint
      (fetchHistory buckets 2 2).1 := by
    have hndl : (histSort (buckets.map bucketToItem)).Nodup :=
      hperm.nodup_iff.mpr hnd
    rw [← List.take_append_drop 2 (histSort (buckets.map bucketToItem))]
      at hndl
    have hd2 := (List.nodup_append.mp hndl).2.2
    rw [hfetch 0, hfetch 2, List.drop_zero]
    intro x hx1 hx2
    exact hd2 hx1 (List.take_subset _ _ hx2)
  refine ⟨?_, hperm, hsorted, ?_, ?_, hdisj, ?_⟩
  · rw [hfetch 0, hfetch 2, hfetch 4, List.drop_zero]
    exact take_two_chunks_eq _ hlen
  · rw [hfetch 0, List.drop_zero]
    exact List.Pairwise.sublist (List.take_sublist 2 _) hsorted
  · rw [hfetch 2]
    exact List.Pairwise.sublist
      ((List.take_sublist 2 _).trans (List.drop_sublist 2 _)) hsorted
  · rw [show (fetchHistory buckets 2 0).2 =
        (histSort (buckets.map bucketToItem)).length from rfl, hlen]

theorem historyPagination_witness :
    (histDemo.map bucketToItem).length = 5 ∧
    (histDemo.map bucketToItem).Nodup ∧
    ((fetchHistory histDemo 2 0).1 ++ ((fetchHistory histDemo 2 2).1 ++
      (fetchHistory histDemo 2 4).1) = histSort (histDemo.map bucketToItem)) ∧
    (fetchHistory histDemo 2 0).2 = 5 :=
  ⟨by decide, by decide,
    (historyPagination histDemo (by decide) (by decide)).1,
    (historyPagination histDemo (by decide) (by decide)).2.2.2.2.2.2⟩

/-- C10: the history listing only ever considers the first 1000 distinct
analyses handed back by the store's composite aggregation — the reported
total never exceeds 1000, and every listed item comes from one of those
first 1000 buckets, whatever limit and offset are supplied. -/
theorem historyCap (sb : List HistBucket) (limit offset : Nat) :
    (fetchHistoryFull sb limit offset).2 ≤ 1000 ∧
    ∀ it ∈ (fetchHistoryFull sb limit offset).1,
      ∃ b ∈ sb.take 1000, bucketToItem b = it := by
  constructor
  · have hl : (histSort ((sb.take 1000).map bucketToItem)).length =
        ((sb.take 1000).map bucketToItem).length :=
      (List.perm_insertionSort histLe _).length_eq
    rw [show (fetchHistoryFull sb limit offset).2 =
        (histSort ((sb.take 1000).map bucketToItem)).length from rfl,
      hl, List.length_map, List.length_take]
    exact min_le_left _ _
  · intro it hit
    rw [show (fetchHistoryFull sb limit offset).1 =
        ((histSort ((sb.take 1000).map bucketToItem)).drop offset).take limit
        from rfl] at hit
    have h1 : it ∈ histSort ((sb.take 1000).map bucketToItem) :=
      List.drop_subset _ _ (List.take_subset _ _ hit)
    have h3 : it ∈ (sb.take 1000).map bucketToItem :=
      ((List.perm_insertionSort histLe _).mem_iff).mp h1
    exact List.mem_map.mp h3

theorem historyCap_witness :
    (fetchHistoryFull histDemo 2 0).2 ≤ 1000 ∧
    bucketToItem ⟨"s1", some "alpha", some 50⟩ ∈ (fetchHistoryFull histDemo 2 0).1 ∧
    ∃ b ∈ histDemo.take 1000,
      bucketToItem b = bucketToItem ⟨"s1", some "alpha", some 50⟩ :=
  ⟨(historyCap histDemo 2 0).1, by decide,
    (historyCap histDemo 2 0).2 (bucketToItem ⟨"s1", some "alpha", some 50⟩)
      (by decide)⟩

/-! ### Similarity-search exclusion (C9) -/

theorem dedupByKey_subset : ∀ (l : List ESDoc) (seen : List String) (d : ESDoc),
    d ∈ dedupByKey l seen → d ∈ l := by
  intro l
  induction l with
  | nil => intro seen d h; simp [dedupByKey] at h
  | cons a rest ih =>
    intro seen d h
    simp only [dedupByKey] at h
    by_cases hs : (seen.contains a.set_id) = true
    · rw [if_pos hs] at h
      exact List.mem_cons_of_mem a (ih _ d h)
    · rw [if_neg hs] at h
      rcases List.mem_cons.mp h with h1 | h1
      · rw [h1]; exact List.mem_cons_self a rest
      · exact List.mem_cons_of_mem a (ih _ d h1)

theorem simBuckets_excludes (docs : List ESDoc) (m : ESDoc → Bool) (e : String)
    (limit : Nat) (d : ESDoc) (hd : d ∈ simBuckets docs m (some e) limit) :
    (d.set_id == e) = false := by
  have h1 : d ∈ dedupByKey (docs.filter (simQueryMatches m (some e))) [] :=
    List.mem_of_mem_take hd
  have h2 : d ∈ docs.filter (simQueryMatches m (some e)) :=
    dedupByKey_subset _ _ _ h1
  have h3 := List.of_mem_filter h2
  simp only [simQueryMatches, Bool.and_eq_true] at h3
  have h4 := h3.2
  rwa [Bool.not_eq_true'] at h4

theorem simBuckets_mapped_excludes (docs : List ESDoc) (m : ESDoc → Bool)
    (limit : Nat) (e : String) :
    ((simBuckets docs m (some e) limit).map
      (fun d => (⟨d.set_id, d.line_text⟩ : SimilarJoke))).all
      (fun r => !(r.set_id == e)) = true := by
  rw [List.all_eq_true]
  intro r hr
  rcases List.mem_map.mp hr with ⟨d, hd, rfl⟩
  rw [Bool.not_eq_true']
  exact simBuckets_excludes docs m e limit d hd

/-- C9: for every similarity query that supplies an excludeAnalysisId, no
returned record belongs to that analysis — whatever the store's semantic or
lexical ranking would have scored it (both match predicates are universally
quantified, so in particular when the excluded record is the top match) —
and this holds on both the semantic path and the more_like_this fallback
path. -/
theorem similarExcludes (docs : List ESDoc) (sm lm : ESDoc → Bool)
    (sOk : Bool) (limit : Nat) (e : String) :
    (findSimilarJokes docs sm lm sOk limit (some e)).all
      (fun r => !(r.set_id == e)) = true := by
  cases sOk with
  | true => exact simBuckets_mapped_excludes docs sm limit e
  | false => exact simBuckets_mapped_excludes docs lm limit e

end HowItLands
